import Mathlib

/-!
# Verification of the gorose session binding engine

Shallow embedding of `src/session.go` (package gorose): the destination
classifier (`parseTable` / `parseFields` / `Bind`), the row materializer
(`scanRow` / `scanAll` / `scanMapAll`), the write path (`Execute` /
`LastInsertId`) and the transaction orchestrator (`Transaction`).

Modelling conventions:
* Go statement texts are modelled as `List Char` (Go strings are byte
  slices; the statements of interest are ASCII, so characters stand in
  for bytes and `List.take` / `List.length` mirror Go slicing).
* Go maps are reference values: `reflect.Append` of a map copies only the
  reference.  We model this with an explicit heap `MapHeap` of mapping
  cells; a bound map destination is a cell index, and the result slice of
  `scanMapAll` is a list of cell indices.
* `database/sql` collaborators (prepared statements, cursors, drivers)
  are modelled at their interface boundary: a cursor is a list of per-row
  scan outcomes plus a terminal `rows.Err()` value, and the write path
  takes an environment fixing the collaborator outcomes.
-/

namespace Gorose

/-! ## Destination classifier (`parseTable`, `parseFields`, `Bind`) -/

/-- The `BindType` constants of the source (`OBJECT_STRING`, `OBJECT_STRUCT`,
`OBJECT_STRUCT_SLICE`, `OBJECT_MAP`, `OBJECT_MAP_SLICE`), i.e. the spec's
`BindShape`: `TableName`, `Record`, `RecordList`, `Mapping`, `MappingList`. -/
inductive BindType where
  | OBJECT_STRING
  | OBJECT_STRUCT
  | OBJECT_STRUCT_SLICE
  | OBJECT_MAP
  | OBJECT_MAP_SLICE
deriving DecidableEq, Repr

/-- Runtime kind of a slice's element type, as seen by the reflection
`switch eltType.Kind()` in `parseTable`.  A struct element carries its type
name, the optional result of a `BindName()` method, and the tag-derived
field list of its declared fields in declaration order. -/
inductive ElemKind where
  | structE (typeName : String) (bindNameMethod : Option String) (tagFields : List String)
  | mapE
  | otherE (typeDesc : String)
deriving DecidableEq, Repr

/-- Runtime kind of the `interface\x7b\x7d` value passed to `Bind`, as seen by
the `switch` statements of `parseTable` (`string`, struct, map, slice, or
anything else such as a scalar, function or channel; `goNil` is the `nil`
interface). -/
inductive BindOrigin where
  | goNil
  | str (s : String)
  | structV (typeName : String) (bindNameMethod : Option String) (tagFields : List String)
  | mapV
  | sliceV (elem : ElemKind)
  | otherV (typeDesc : String)
deriving DecidableEq, Repr

/-- The classifier-visible fields of `Session` / the spec's
`BindingContext`: `BindType`, `BindName`, `BindFields`, `BindLimit`. -/
structure BindState where
  bindType : BindType
  bindName : String
  bindFields : List String
  bindLimit : Int
deriving DecidableEq, Repr

/-- Modelled from the spec: `getTagName` (the field-naming convention,
whose source lives outside `src/session.go`) reads the record template's
declared fields in declaration order and maps each to its column name.  We
carry that resulting ordered column list directly on the struct kind
(`tagFields`), so `getTagName` is the identity on it. -/
def getTagName (tagFields : List String) : List String := tagFields

/-- `parseFields` (session.go:355-359): populate `BindFields` from the
template's tags only when the current list is empty. -/
def parseFields (st : BindState) (tagFields : List String) : BindState :=
  if st.bindFields = [] then { st with bindFields := getTagName tagFields } else st

/-- The classification error message of `parseTable` (session.go:343,346). -/
def parseTableErrMsg (typeDesc : String) : String :=
  "table只接收 struct,[]struct,map[string]interface\x7b\x7d,[]map[string]interface\x7b\x7d, 但是传入的是: " ++ typeDesc

/-- `parseTable` (session.go:281-353).  The Go method mutates the receiver
and returns an error; we return the mutated state together with the error.
Mutations made before an error return (here: the clearing of `BindFields`
at line 294) persist on the session, and the final `s.BindName = BindName`
assignment (line 350) is reached only on the non-error paths. -/
def parseTable (st : BindState) (o : BindOrigin) : BindState × Option String :=
  match o with
  | .goNil => (st, none)
  | .str name =>
      ({ st with bindType := .OBJECT_STRING, bindName := name }, none)
  | .structV typeName bindNameMethod tagFields =>
      let st1 : BindState := { st with bindFields := [] }
      let bn := match bindNameMethod with | some n => n | none => typeName
      let st2 : BindState := { st1 with bindType := .OBJECT_STRUCT, bindLimit := 1 }
      let st3 := parseFields st2 tagFields
      ({ st3 with bindName := bn }, none)
  | .mapV =>
      let st1 : BindState := { st with bindFields := [] }
      ({ st1 with bindType := .OBJECT_MAP, bindLimit := 1, bindName := "" }, none)
  | .sliceV (.mapE) =>
      let st1 : BindState := { st with bindFields := [] }
      ({ st1 with bindType := .OBJECT_MAP_SLICE, bindName := "" }, none)
  | .sliceV (.structE typeName bindNameMethod tagFields) =>
      let st1 : BindState := { st with bindFields := [] }
      let bn := match bindNameMethod with | some n => n | none => typeName
      let st2 : BindState := { st1 with bindType := .OBJECT_STRUCT_SLICE }
      let st3 := parseFields st2 tagFields
      ({ st3 with bindName := bn }, none)
  | .sliceV (.otherE typeDesc) =>
      ({ st with bindFields := [] }, some (parseTableErrMsg typeDesc))
  | .otherV typeDesc =>
      ({ st with bindFields := [] }, some (parseTableErrMsg typeDesc))

/-- `Bind` (session.go:57-62): stores the origin and calls `parseTable`,
discarding its error (`_ = s.parseTable()`); the session is returned for
chaining, with no error channel. -/
def Bind (st : BindState) (tab : BindOrigin) : BindState :=
  (parseTable st tab).1

/-! ## Row materializer (`scanRow`, `scanAll`, `scanMapAll`) -/

/-- A driver-native column value as delivered into an
`interface\x7b\x7d` scan target: a binary payload (`[]byte`, carried here
as its text content), or any other driver value, or SQL NULL (`nil`). -/
inductive DVal where
  | bytes (content : String)
  | intV (n : Int)
  | strV (s : String)
  | null
deriving DecidableEq, Repr

/-- One cursor row: the column values in column order. -/
abbrev Row := List DVal

/-- A forward-only row cursor at its interface boundary: each element is
one `rows.Next()` / `rows.Scan(...)` round (`Except.ok` delivers the row's
values, `Except.error` is the scan error for that row), and `errAtEnd` is
what `rows.Err()` reports once `rows.Next()` has returned `false`. -/
structure Cursor where
  rows : List (Except String Row)
  errAtEnd : Option String
deriving Repr

/-- The error outcomes of a single-record scan: `noRows` is the sentinel
`sql.ErrNoRows`, `scanErr` a structural `rows.Scan` error, `cursorErr` a
non-nil `rows.Err()`. -/
inductive RowErr where
  | noRows
  | scanErr (m : String)
  | cursorErr (m : String)
deriving DecidableEq, Repr

/-- `scanRow` (session.go:242-261): advance the cursor once; if no row is
waiting, return `rows.Err()` when non-nil and `sql.ErrNoRows` otherwise;
otherwise scan the row positionally into the record's field targets
(`strutForScan dst`, the ordered field storage — modelled as the delivered
`Row`) and stop.  Returns the error outcome, the values stored into the
record's fields, and the cursor as `scanRow` leaves it (remaining rows
undrained). -/
def scanRow (c : Cursor) : Option RowErr × Option Row × Cursor :=
  match c.rows with
  | [] =>
      match c.errAtEnd with
      | some e => (some (.cursorErr e), none, c)
      | none => (some .noRows, none, c)
  | .error e :: rest => (some (.scanErr e), none, { rows := rest, errAtEnd := c.errAtEnd })
  | .ok r :: rest => (none, some r, { rows := rest, errAtEnd := c.errAtEnd })

/-- `scanAll` (session.go:267-279): loop over the cursor; each successful
scan fills the one struct template (`s.BindResult`) whose dereferenced
value is then appended to the destination slice (`reflect.Append` copies
the struct value, so elements are independent); a scan error returns
immediately; exhaustion returns `rows.Err()`.  `acc` is the destination
slice's current contents ("new results are appended to any existing
data"). -/
def scanAll (rowsL : List (Except String Row)) (errAtEnd : Option String)
    (acc : List Row) : List Row × Option String :=
  match rowsL with
  | [] => (acc, errAtEnd)
  | .error e :: _ => (acc, some e)
  | .ok r :: rest => scanAll rest errAtEnd (acc ++ [r])

/-- The decoding rule of `scanMapAll` (session.go:225-229): a `[]byte`
payload becomes `string(b)`; every other value passes through. -/
def decodeVal : DVal → DVal
  | .bytes b => .strV b
  | v => v

/-- Go map write (`SetMapIndex`): overwrite the key if present, otherwise
add the entry. -/
def setMapIndex (m : List (String × DVal)) (k : String) (v : DVal) :
    List (String × DVal) :=
  if m.any (fun p => p.1 = k) then
    m.map (fun p => if p.1 = k then (k, v) else p)
  else
    m ++ [(k, v)]

/-- The per-row map update loop of `scanMapAll` (session.go:222-232):
`for i, col := range columns` writes `decodeVal values[i]` under `col`
into the one bound map `s.BindResult`. -/
def applyRow (m : List (String × DVal)) (cols : List String) (values : List DVal) :
    List (String × DVal) :=
  (cols.zip values).foldl (fun acc p => setMapIndex acc p.1 (decodeVal p.2)) m

/-- The heap of live Go map values.  A map destination is a cell index
into `store`; `reflect.Append` of a map value copies only the reference,
i.e. the index. -/
structure MapHeap where
  store : List (List (String × DVal))
deriving DecidableEq, Repr

/-- Read a map cell (empty map when the index is dead). -/
def heapGet (h : MapHeap) (i : Nat) : List (String × DVal) :=
  h.store.getD i []

/-- Overwrite a map cell in place. -/
def heapSet (h : MapHeap) (i : Nat) (m : List (String × DVal)) : MapHeap :=
  ⟨h.store.set i m⟩

/-- The row loop of `scanMapAll` (session.go:216-237).  `rid` is the heap
cell of the one bound map `s.BindResult` (allocated once at bind time,
session.go:328); `slice` is `s.BindResultSlice` as a list of map
references; `values` is the reused `values` scan buffer.  The result of
`rows.Scan(scanArgs...)` is discarded by the source (line 220), so an
error row leaves `values` unchanged and the loop continues; the map update
and the append run regardless.  The append happens only under
`OBJECT_MAP_SLICE` (line 234). -/
def scanMapLoop (bt : BindType) (cols : List String) (rid : Nat) :
    List (Except String Row) → MapHeap → List Nat → List DVal →
    MapHeap × List Nat × Option String
  | [], heap, slice, _ => (heap, slice, none)
  | r :: rest, heap, slice, values =>
      let values' := match r with | .ok v => v | .error _ => values
      let m := applyRow (heapGet heap rid) cols values'
      let heap' := heapSet heap rid m
      let slice' := if bt = .OBJECT_MAP_SLICE then slice ++ [rid] else slice
      scanMapLoop bt cols rid rest heap' slice' values'

/-- `scanMapAll` (session.go:205-239): read the column list once (its
error is returned), initialize the `values` buffer to `nil`s, then run the
row loop.  The function's returned `err` is whatever `rows.Columns` left —
scan errors never reach it, and `rows.Err()` is not consulted. -/
def scanMapAll (bt : BindType) (colsRes : Except String (List String))
    (rowsL : List (Except String Row)) (heap : MapHeap) (rid : Nat)
    (slice : List Nat) : MapHeap × List Nat × Option String :=
  match colsRes with
  | .error e => (heap, slice, some e)
  | .ok cols => scanMapLoop bt cols rid rowsL heap slice (List.replicate cols.length DVal.null)

/-! ## Write path (`Execute`, `LastInsertId`) -/

/-- A Go statement text, as a list of its (ASCII) characters; Go's
`sqlstring[0:6]` is `List.take 6` guarded by the byte length. -/
abbrev GoStr := List Char

/-- ASCII lower-casing of one character, the relevant fragment of
`strings.ToLower` for SQL keyword detection. -/
def toLowerCh (c : Char) : Char :=
  if 'A' ≤ c ∧ c ≤ 'Z' then Char.ofNat (c.toNat + 32) else c

/-- `strings.ToLower` on a statement prefix. -/
def goToLower (s : GoStr) : GoStr := s.map toLowerCh

/-- The keyword literals `Execute` compares against. -/
def selectKw : GoStr := ['s', 'e', 'l', 'e', 'c', 't']

/-- The `insert` keyword literal. -/
def insertKw : GoStr := ['i', 'n', 's', 'e', 'r', 't']

/-- The `update` keyword literal. -/
def updateKw : GoStr := ['u', 'p', 'd', 'a', 't', 'e']

/-- The `delete` keyword literal. -/
def deleteKw : GoStr := ['d', 'e', 'l', 'e', 't', 'e']

/-- The usage error text of session.go:132. -/
def selectErrMsg : String := "Execute does not allow select operations, please use Query"

/-- Observable side effects of `Execute` on the write-path collaborators:
preparing on the master connection, preparing on the transaction handle,
and executing the prepared statement. -/
inductive WEffect where
  | prepareMaster
  | prepareTx
  | stmtExec
deriving DecidableEq, Repr

/-- Collaborator outcomes fixed for one `Execute` call: the prepare error
(from `masterDB.Prepare` or `tx.Prepare`), the `stmt.Exec` error, the
`result.LastInsertId()` outcome, and the `result.RowsAffected()` pair. -/
structure ExecEnv where
  prepErr : Option String
  execErr : Option String
  liid : Except String Int
  raVal : Int
  raErr : Option String
deriving Repr

/-- The `Execute`-visible fields of `Session`: transaction presence,
`lastInsertId`, `lastSql`, `sqlLogs`, and the query-log flag
(`IfEnableQueryLog`, an `IEngin` collaborator read). -/
structure SessWState where
  hasTx : Bool
  lastInsertId : Int
  lastSql : GoStr
  sqlLogs : List GoStr
  enableQueryLog : Bool
deriving DecidableEq, Repr

/-- What a call to `Execute` comes back with: a normal Go return
`(rowsAffected, err)`, or a runtime panic (slice bounds out of range from
`sqlstring[0:6]`), which returns nothing. -/
inductive ExecOutcome where
  | panicked
  | result (rowsAffected : Int) (err : Option String)
deriving DecidableEq, Repr

/-- The diagnostics step of session.go:124-128: record `lastSql`
(`fmt.Sprintf` with no further arguments is the text itself) and append it
to `sqlLogs` when query logging is enabled. -/
def logStep (st : SessWState) (sqlstring : GoStr) : SessWState :=
  { st with
    lastSql := sqlstring,
    sqlLogs := if st.enableQueryLog then st.sqlLogs ++ [sqlstring] else st.sqlLogs }

/-- `Execute` (session.go:121-175).  After the diagnostics step, the
statement's first six bytes are sliced (`sqlstring[0:6]` — a panic when
the text is shorter) and lower-cased; `"select"` is rejected with the
usage error before any connection is touched; otherwise the statement is
prepared on the transaction handle when one is active and on the master
connection otherwise, then executed; on success, when the keyword is
`"insert"` the generated id is captured best-effort (`err == nil` guards
the store); finally `result.RowsAffected()` is returned as-is. -/
def Execute (env : ExecEnv) (st : SessWState) (sqlstring : GoStr) :
    SessWState × List WEffect × ExecOutcome :=
  let st1 := logStep st sqlstring
  if sqlstring.length < 6 then
    (st1, [], .panicked)
  else
    let operType := goToLower (sqlstring.take 6)
    if operType = selectKw then
      (st1, [], .result 0 (some selectErrMsg))
    else
      let prepEff := if st1.hasTx then WEffect.prepareTx else WEffect.prepareMaster
      match env.prepErr with
      | some e => (st1, [prepEff], .result 0 (some e))
      | none =>
          match env.execErr with
          | some e => (st1, [prepEff, .stmtExec], .result 0 (some e))
          | none =>
              let st2 :=
                if operType = insertKw then
                  match env.liid with
                  | .ok v => { st1 with lastInsertId := v }
                  | .error _ => st1
                else st1
              (st2, [prepEff, .stmtExec], .result env.raVal env.raErr)

/-- `LastInsertId` (session.go:176-178): a pure accessor. -/
def LastInsertId (st : SessWState) : Int := st.lastInsertId

/-! ## Transaction orchestrator (`Transaction`) -/

/-- Observable transaction events: `Begin`, each closer invocation (by
position), `Rollback`, `Commit`. -/
inductive TxEvent where
  | txBegin
  | stepCall (i : Nat)
  | txRollback
  | txCommit
deriving DecidableEq, Repr

/-- The closer loop of `Transaction` (session.go:87-93) over caller-
supplied steps `S → S × Option String` acting on the session state `S`:
invoke each in order on the threaded state; on the first error, issue a
rollback (its own error is discarded, `_ = s.Rollback()`) and return that
error; later steps are never invoked.  Returns the final state, the event
trace, and the loop's error. -/
def runClosers {S : Type} (i : Nat) (s : S) :
    List (S → S × Option String) → S × List TxEvent × Option String
  | [] => (s, [], none)
  | c :: rest =>
      let r := c s
      match r.2 with
      | some e => (r.1, [.stepCall i, .txRollback], some e)
      | none =>
          let out := runClosers (i + 1) r.1 rest
          (out.1, .stepCall i :: out.2.1, out.2.2)

/-- `Transaction` (session.go:81-95): `Begin` (its error returned as-is),
the closer loop, then `Commit` whose result is returned when every closer
succeeded. -/
def Transaction {S : Type} (beginErr commitErr : Option String)
    (closers : List (S → S × Option String)) (s : S) :
    S × List TxEvent × Option String :=
  match beginErr with
  | some e => (s, [.txBegin], some e)
  | none =>
      let out := runClosers 0 s closers
      match out.2.2 with
      | some e => (out.1, .txBegin :: out.2.1, some e)
      | none => (out.1, (.txBegin :: out.2.1) ++ [.txCommit], commitErr)

/-- Threading of the session state through a list of steps (the state each
later step receives). -/
def threadSteps {S : Type} (s : S) : List (S → S × Option String) → S
  | [] => s
  | c :: rest => threadSteps (c s).1 rest

/-- All steps succeed when invoked in order from `s`. -/
def StepsOk {S : Type} (s : S) : List (S → S × Option String) → Prop
  | [] => True
  | c :: rest => (c s).2 = none ∧ StepsOk (c s).1 rest

/-- The values a successful scan delivered (the empty row for an error
element; used only under an all-rows-ok hypothesis). -/
def okRow : Except String Row → Row
  | .ok v => v
  | .error _ => []

/-- The closer-invocation events `stepCall i, stepCall (i+1), ...` for `n`
consecutive steps. -/
def stepEvents : Nat → Nat → List TxEvent
  | _, 0 => []
  | i, n + 1 => .stepCall i :: stepEvents (i + 1) n

/-! ## Theorems

Claim-level results about the embedded program, with shared helper lemmas
first. -/

/-- parseFields leaves a non-empty field list untouched and fills an empty
one from the tag list. -/
theorem parseFields_cases (st : BindState) (tags : List String) :
    (st.bindFields ≠ [] → parseFields st tags = st) ∧
    (st.bindFields = [] → parseFields st tags = { st with bindFields := getTagName tags }) := by
  constructor
  · intro h
    simp [parseFields, h]
  · intro h
    simp [parseFields, h]

/-- C1.  The claim says a caller-pre-populated field list is never
overwritten by classification; but `parseTable` clears `BindFields`
before calling `parseFields`, so a pre-set list `["manual"]` is replaced
by the tag-derived list on a `Record` destination. -/
theorem parseTable_overwrites_preset_fields_cex :
    (parseTable ⟨.OBJECT_STRING, "users", ["manual"], 0⟩
        (.structV "User" none ["id", "name"])).1.bindFields = ["id", "name"] ∧
    (["id", "name"] : List String) ≠ ["manual"] := by
  constructor
  · rfl
  · decide

/-- C1 (amended).  Classification always clears the field list of a
`Record`/`RecordList` destination and repopulates it from the
declaration-order tag list — a caller-pre-set list is overwritten; the
empty-guard lives only inside `parseFields`, which alone preserves a
non-empty list and fills an empty one in declaration order. -/
theorem parseTable_fields_always_rederived (st : BindState) (tn : String)
    (bm : Option String) (tags : List String) :
    (parseTable st (.structV tn bm tags)).1.bindFields = getTagName tags ∧
    (parseTable st (.sliceV (.structE tn bm tags))).1.bindFields = getTagName tags ∧
    (∀ st2 : BindState, ∀ tags2 : List String,
        st2.bindFields ≠ [] → parseFields st2 tags2 = st2) ∧
    (∀ st2 : BindState, ∀ tags2 : List String,
        st2.bindFields = [] →
          parseFields st2 tags2 = { st2 with bindFields := getTagName tags2 }) := by
  refine ⟨?_, ?_, ?_, ?_⟩
  · simp [parseTable, parseFields]
  · simp [parseTable, parseFields]
  · intro st2 tags2 h
    simp [parseFields, h]
  · intro st2 tags2 h
    simp [parseFields, h]

/-- Witness for the C1 amended theorem at concrete inputs. -/
theorem parseTable_fields_always_rederived_witness :
    (parseTable ⟨.OBJECT_STRING, "t", ["pre"], 0⟩
        (.structV "User" none ["id", "name"])).1.bindFields = ["id", "name"] ∧
    parseFields ⟨.OBJECT_STRUCT, "t", ["kept"], 1⟩ ["x"] = ⟨.OBJECT_STRUCT, "t", ["kept"], 1⟩ := by
  have h := parseTable_fields_always_rederived ⟨.OBJECT_STRING, "t", ["pre"], 0⟩ "User" none
    ["id", "name"]
  exact ⟨h.1, h.2.2.1 ⟨.OBJECT_STRUCT, "t", ["kept"], 1⟩ ["x"] (by decide)⟩

/-- C4.  The claim says a classification error is surfaced to the caller of
`Bind`; but `Bind` discards it (`_ = s.parseTable()`): on an unsupported
destination `parseTable` produces the error, while `Bind` returns the
session state with no error channel, `BindType` untouched. -/
theorem bind_discards_classification_error_cex :
    (parseTable ⟨.OBJECT_STRING, "users", [], 0⟩ (.otherV "int")).2 =
      some (parseTableErrMsg "int") ∧
    Bind ⟨.OBJECT_STRING, "users", [], 0⟩ (.otherV "int") =
      ⟨.OBJECT_STRING, "users", [], 0⟩ ∧
    (Bind ⟨.OBJECT_STRING, "users", [], 0⟩ (.otherV "int")).bindType = .OBJECT_STRING := by
  refine ⟨rfl, rfl, rfl⟩

/-- C4 (amended).  On an unrecognized destination kind (scalar etc., or a
slice of unsupported element type) `parseTable` produces the
classification error and assigns no `BindType` (only `BindFields` is
cleared on the non-string default path), and `Bind` discards that error,
returning the session for chaining. -/
theorem bind_classification_error_discarded (st : BindState) (td : String) :
    parseTable st (.otherV td) = ({ st with bindFields := [] }, some (parseTableErrMsg td)) ∧
    parseTable st (.sliceV (.otherE td)) =
      ({ st with bindFields := [] }, some (parseTableErrMsg td)) ∧
    Bind st (.otherV td) = { st with bindFields := [] } ∧
    Bind st (.sliceV (.otherE td)) = { st with bindFields := [] } ∧
    (Bind st (.otherV td)).bindType = st.bindType := by
  refine ⟨rfl, rfl, rfl, rfl, rfl⟩

/-- C5.  The claim says a `Mapping` bind leaves the resolved table name
unmodified; but `parseTable` unconditionally runs `s.BindName = BindName`
with the local still empty on the map path, so a table name set by a prior
string bind is clobbered to the empty string. -/
theorem mapping_bind_clobbers_table_name_cex :
    (Bind ⟨.OBJECT_STRING, "", [], 0⟩ (.str "users")).bindName = "users" ∧
    (Bind (Bind ⟨.OBJECT_STRING, "", [], 0⟩ (.str "users")) .mapV).bindName = "" ∧
    ("users" : String) ≠ "" := by
  refine ⟨rfl, rfl, by decide⟩

/-- C5 (amended).  Classifying a `Mapping` destination sets shape
`OBJECT_MAP`, row limit 1, clears the field list, and resets the resolved
table name to the empty string — overwriting any previously established
table name. -/
theorem parseTable_mapping_resets_bindName (st : BindState) :
    parseTable st .mapV =
      ({ st with bindType := .OBJECT_MAP, bindName := "", bindLimit := 1,
                 bindFields := [] }, none) := by
  rfl

/-- Overwriting a heap cell twice keeps only the second write. -/
theorem heapSet_heapSet (h : MapHeap) (i : Nat) (m m' : List (String × DVal)) :
    heapSet (heapSet h i m) i m' = heapSet h i m' := by
  simp [heapSet, List.set_set]

/-- Reading back a freshly written heap cell. -/
theorem heapGet_heapSet_self (h : MapHeap) (i : Nat) (m : List (String × DVal))
    (hi : i < h.store.length) : heapGet (heapSet h i m) i = m := by
  simp only [heapGet, heapSet, List.getD_eq_getElem?_getD]
  rw [List.getElem?_set_self (by simpa using hi)]
  rfl

/-- Writing a cell's own contents back is the identity. -/
theorem heapSet_heapGet_self (h : MapHeap) (i : Nat) (hi : i < h.store.length) :
    heapSet h i (heapGet h i) = h := by
  obtain ⟨store⟩ := h
  simp only [heapSet, heapGet, MapHeap.mk.injEq]
  rw [List.getD_eq_getElem store [] hi]
  apply List.ext_getElem
  · simp
  · intro j h1 h2
    rw [List.getElem_set]
    split
    · subst i; rfl
    · rfl

/-- The row loop of `scanMapAll` never reports an error: the per-row
`rows.Scan` result is discarded by the source. -/
theorem scanMapLoop_err_none (bt : BindType) (cols : List String) (rid : Nat)
    (rowsL : List (Except String Row)) :
    ∀ (heap : MapHeap) (slice : List Nat) (values : List DVal),
      (scanMapLoop bt cols rid rowsL heap slice values).2.2 = none := by
  induction rowsL with
  | nil => intro heap slice values; rfl
  | cons r rest ih =>
      intro heap slice values
      simp only [scanMapLoop]
      exact ih _ _ _

/-- Under `OBJECT_MAP_SLICE` the row loop appends one reference per cursor
row, error rows included. -/
theorem scanMapLoop_slice_len (cols : List String) (rid : Nat)
    (rowsL : List (Except String Row)) :
    ∀ (heap : MapHeap) (slice : List Nat) (values : List DVal),
      (scanMapLoop .OBJECT_MAP_SLICE cols rid rowsL heap slice values).2.1.length
        = slice.length + rowsL.length := by
  induction rowsL with
  | nil => intro heap slice values; simp [scanMapLoop]
  | cons r rest ih =>
      intro heap slice values
      simp only [scanMapLoop, if_pos rfl]
      rw [ih]
      simp
      omega

/-- `scanAll` materializes every row before the first failing one and
stops there with that row's scan error; the rows already appended stay. -/
theorem scanAll_stops_at_error (e : String) (rest : List (Except String Row))
    (ee : Option String) :
    ∀ (pre : List Row) (acc : List Row),
      scanAll (pre.map Except.ok ++ Except.error e :: rest) ee acc = (acc ++ pre, some e) := by
  intro pre
  induction pre with
  | nil => intro acc; simp [scanAll]
  | cons r pre ih =>
      intro acc
      simp only [List.map_cons, List.cons_append, scanAll, List.append_eq]
      rw [ih]
      simp

/-- The row loop on an all-successful cursor: every row is appended as the
same reference `rid`, and the shared cell ends as the left fold of the
per-row updates (so each row overwrites the previous one's values). -/
theorem scanMapLoop_all_ok (cols : List String) (rid : Nat)
    (rowsL : List (Except String Row)) :
    ∀ (heap : MapHeap) (slice : List Nat) (values : List DVal),
      (∀ x ∈ rowsL, ∃ v, x = Except.ok v) → rid < heap.store.length →
      scanMapLoop .OBJECT_MAP_SLICE cols rid rowsL heap slice values =
        (heapSet heap rid
            (rowsL.foldl (fun m r => applyRow m cols (okRow r)) (heapGet heap rid)),
         slice ++ List.replicate rowsL.length rid, none) := by
  induction rowsL with
  | nil =>
      intro heap slice values _ hrid
      simp only [scanMapLoop, List.foldl_nil, List.replicate, List.append_nil]
      rw [heapSet_heapGet_self heap rid hrid]
  | cons r rest ih =>
      intro heap slice values hall hrid
      obtain ⟨v, hv⟩ := hall r (List.mem_cons_self r rest)
      subst hv
      simp only [scanMapLoop, if_pos rfl, ite_true]
      rw [ih (heapSet heap rid (applyRow (heapGet heap rid) cols v)) (slice ++ [rid]) v
          (fun x hx => hall x (List.mem_cons_of_mem _ hx)) (by simpa [heapSet] using hrid)]
      rw [heapGet_heapSet_self _ _ _ hrid, heapSet_heapSet]
      simp [List.foldl_cons, List.replicate_succ, okRow]

/-- C2.  The claim says a failing per-row scan aborts materialization with
the error returned, under any shape; but under `MappingList` the source
discards the `rows.Scan` error: on a cursor `[ok, scan-error, ok]` the
returned error is `none` and all three rows are appended (the loop ran
past the failing row). -/
theorem scanMapAll_ignores_scan_error_cex :
    scanMapAll .OBJECT_MAP_SLICE (.ok ["a"])
        [.ok [.intV 1], .error "boom", .ok [.intV 2]] ⟨[[]]⟩ 0 [] =
      (⟨[[("a", DVal.intV 2)]]⟩, [0, 0, 0], none) := by
  rfl

/-- C2 (amended).  Under the `Record`/`RecordList` shapes a per-row scan
error aborts materialization at that row and is returned, with the rows
already appended kept; under the `Mapping`/`MappingList` shapes
(`scanMapAll`) the per-row scan error is discarded: the loop never
reports an error and continues through every row, appending one element
per row under `MappingList`. -/
theorem scan_abort_policy_by_shape :
    (∀ (pre : List Row) (e : String) (rest : List (Except String Row)) (ee : Option String)
        (acc : List Row),
        scanAll (pre.map Except.ok ++ Except.error e :: rest) ee acc = (acc ++ pre, some e)) ∧
    (∀ (e : String) (rest : List (Except String Row)) (ee : Option String),
        (scanRow ⟨Except.error e :: rest, ee⟩).1 = some (.scanErr e)) ∧
    (∀ (bt : BindType) (cols : List String) (rid : Nat) (rowsL : List (Except String Row))
        (heap : MapHeap) (slice : List Nat) (values : List DVal),
        (scanMapLoop bt cols rid rowsL heap slice values).2.2 = none) ∧
    (∀ (cols : List String) (rowsL : List (Except String Row)) (heap : MapHeap) (rid : Nat)
        (slice : List Nat),
        (scanMapAll .OBJECT_MAP_SLICE (.ok cols) rowsL heap rid slice).2.1.length
          = slice.length + rowsL.length) := by
  refine ⟨?_, ?_, ?_, ?_⟩
  · intro pre e rest ee acc
    exact scanAll_stops_at_error e rest ee pre acc
  · intro e rest ee
    rfl
  · intro bt cols rid rowsL heap slice values
    exact scanMapLoop_err_none bt cols rid rowsL heap slice values
  · intro cols rowsL heap rid slice
    simp only [scanMapAll]
    exact scanMapLoop_slice_len cols rid rowsL heap slice _

/-- C3.  The claim says each appended `MappingList` element is a distinct
mapping holding its own row's values; but the source appends the one
bound map reference every row: on two rows the result slice is the same
reference twice, and the shared cell holds the second row's value, not
the first row's. -/
theorem scanMapAll_shared_mapping_cex :
    scanMapAll .OBJECT_MAP_SLICE (.ok ["a"]) [.ok [.intV 1], .ok [.intV 2]] ⟨[[]]⟩ 0 [] =
      (⟨[[("a", DVal.intV 2)]]⟩, [0, 0], none) ∧
    DVal.intV 2 ≠ DVal.intV 1 := by
  exact ⟨rfl, by decide⟩

/-- C3 (amended).  Under `MappingList` every row appends the same single
template map allocated at bind time: on an `n`-row cursor the destination
slice becomes `n` copies of one reference (so mutating one appended
mapping is visible through all of them), and the shared mapping ends as
the left fold of the per-row column updates — each row overwrites the
previous one, leaving the last row's decoded values. -/
theorem scanMapAll_mapping_list_aliasing (cols : List String)
    (rowsL : List (Except String Row)) (heap : MapHeap) (rid : Nat)
    (hall : ∀ x ∈ rowsL, ∃ v, x = Except.ok v) (hrid : rid < heap.store.length) :
    scanMapAll .OBJECT_MAP_SLICE (.ok cols) rowsL heap rid [] =
      (heapSet heap rid
          (rowsL.foldl (fun m r => applyRow m cols (okRow r)) (heapGet heap rid)),
       List.replicate rowsL.length rid, none) := by
  simp only [scanMapAll]
  rw [scanMapLoop_all_ok cols rid rowsL heap [] _ hall hrid]
  simp

/-- Witness for the C3 amended theorem at a concrete two-row cursor. -/
theorem scanMapAll_mapping_list_aliasing_witness :
    scanMapAll .OBJECT_MAP_SLICE (.ok ["a"]) [.ok [.strV "x"], .ok [.strV "y"]] ⟨[[]]⟩ 0 [] =
      (heapSet ⟨[[]]⟩ 0
          ([Except.ok [DVal.strV "x"], Except.ok [DVal.strV "y"]].foldl
            (fun m r => applyRow m ["a"] (okRow r)) (heapGet ⟨[[]]⟩ 0)),
       List.replicate 2 0, none) := by
  exact scanMapAll_mapping_list_aliasing ["a"] [.ok [.strV "x"], .ok [.strV "y"]] ⟨[[]]⟩ 0
    (by intro x hx; simp at hx; rcases hx with h | h <;> exact ⟨_, by rw [h]⟩)
    (by decide)

/-- C8.  `scanRow` advances the cursor exactly once: a clean empty cursor
yields the `sql.ErrNoRows` sentinel (a constructor distinct from any
structural scan error), a successful first row is scanned into the
record's field targets and the remaining rows are left undrained, and a
failing first row returns its scan error. -/
theorem scanRow_advances_once :
    (∀ (ee : Option String) (v : Row) (rest : List (Except String Row)),
        scanRow ⟨Except.ok v :: rest, ee⟩ = (none, some v, ⟨rest, ee⟩)) ∧
    scanRow ⟨[], none⟩ = (some .noRows, none, ⟨[], none⟩) ∧
    (∀ m : String, RowErr.noRows ≠ RowErr.scanErr m) ∧
    (∀ (e : String) (rest : List (Except String Row)) (ee : Option String),
        scanRow ⟨Except.error e :: rest, ee⟩ = (some (.scanErr e), none, ⟨rest, ee⟩)) := by
  refine ⟨?_, rfl, ?_, ?_⟩
  · intro ee v rest
    rfl
  · intro m h
    exact RowErr.noConfusion h
  · intro e rest ee
    rfl

/-- A statement whose lower-cased six-byte prefix equals a six-byte
keyword is at least six bytes long (so `sqlstring[0:6]` is in range). -/
theorem keyword_forces_length (s kw : GoStr) (hkw : kw.length = 6)
    (h : goToLower (s.take 6) = kw) : ¬ s.length < 6 := by
  intro hlt
  have h1 : (goToLower (s.take 6)).length = kw.length := by rw [h]
  simp only [goToLower, List.length_map, List.length_take, hkw] at h1
  omega

/-- C6.  On a statement text shorter than six bytes, `Execute` slices
`sqlstring[0:6]` past the end of the text and panics after the
diagnostics step, returning nothing to the caller. -/
theorem execute_short_statement_panics (env : ExecEnv) (st : SessWState) (s : GoStr)
    (h : s.length < 6) :
    Execute env st s = (logStep st s, [], .panicked) := by
  simp [Execute, h]

/-- Witness for C6 at the three-byte statement `ins`. -/
theorem execute_short_statement_panics_witness :
    Execute ⟨none, none, .ok 5, 1, none⟩ ⟨false, 0, [], [], false⟩ ['i', 'n', 's'] =
      (logStep ⟨false, 0, [], [], false⟩ ['i', 'n', 's'], [], .panicked) ∧
    (['i', 'n', 's'] : GoStr).length < 6 :=
  ⟨execute_short_statement_panics ⟨none, none, .ok 5, 1, none⟩ ⟨false, 0, [], [], false⟩
      ['i', 'n', 's'] (by decide), by decide⟩

/-- C7.  A statement whose first six bytes lower-case to `select` is
rejected by `Execute` with the usage error and zero rows affected, with
no effect on the write-path connection or the transaction handle (the
effect trace is empty; only the diagnostics step ran). -/
theorem execute_select_rejected (env : ExecEnv) (st : SessWState) (s : GoStr)
    (h : goToLower (s.take 6) = selectKw) :
    Execute env st s = (logStep st s, [], .result 0 (some selectErrMsg)) := by
  have h6 := keyword_forces_length s selectKw (by decide) h
  simp [Execute, h6, h]

/-- Witness for C7 at the mixed-case statement `SeLeCt 1`. -/
theorem execute_select_rejected_witness :
    Execute ⟨none, none, .ok 7, 2, none⟩ ⟨true, 3, [], [], true⟩
        ['S', 'e', 'L', 'e', 'C', 't', ' ', '1'] =
      (logStep ⟨true, 3, [], [], true⟩ ['S', 'e', 'L', 'e', 'C', 't', ' ', '1'], [],
        .result 0 (some selectErrMsg)) :=
  execute_select_rejected ⟨none, none, .ok 7, 2, none⟩ ⟨true, 3, [], [], true⟩
    ['S', 'e', 'L', 'e', 'C', 't', ' ', '1'] (by decide)

/-- C10.  On a successful write (prepare and exec both succeed): an
`insert` statement stores the driver-reported generated id when its
retrieval succeeds and keeps the previous `lastInsertId` when retrieval
fails, with the call still returning the `RowsAffected` pair either way;
an `update` or `delete` statement never touches `lastInsertId`. -/
theorem execute_insert_updates_lastInsertId (env : ExecEnv) (st : SessWState) (s : GoStr)
    (hp : env.prepErr = none) (he : env.execErr = none) :
    (goToLower (s.take 6) = insertKw →
      (∀ v : Int, env.liid = Except.ok v →
        LastInsertId (Execute env st s).1 = v ∧
        (Execute env st s).2.2 = .result env.raVal env.raErr) ∧
      (∀ m : String, env.liid = Except.error m →
        LastInsertId (Execute env st s).1 = st.lastInsertId ∧
        (Execute env st s).2.2 = .result env.raVal env.raErr)) ∧
    ((goToLower (s.take 6) = updateKw ∨ goToLower (s.take 6) = deleteKw) →
      LastInsertId (Execute env st s).1 = st.lastInsertId ∧
      (Execute env st s).2.2 = .result env.raVal env.raErr) := by
  constructor
  · intro hkw
    have h6 := keyword_forces_length s insertKw (by decide) hkw
    constructor
    · intro v hv
      simp +decide [Execute, h6, hkw, hp, he, hv, LastInsertId, logStep]
    · intro m hv
      simp +decide [Execute, h6, hkw, hp, he, hv, LastInsertId, logStep]
  · intro hkw
    rcases hkw with hkw | hkw
    · have h6 := keyword_forces_length s updateKw (by decide) hkw
      simp +decide [Execute, h6, hkw, hp, he, LastInsertId, logStep]
    · have h6 := keyword_forces_length s deleteKw (by decide) hkw
      simp +decide [Execute, h6, hkw, hp, he, LastInsertId, logStep]

/-- Witness for C10: a succeeding insert stores 42, a failing id
retrieval keeps 7, and an update keeps 7. -/
theorem execute_insert_updates_lastInsertId_witness :
    LastInsertId (Execute ⟨none, none, .ok 42, 1, none⟩ ⟨false, 7, [], [], false⟩
        ['i', 'n', 's', 'e', 'r', 't', ' ', 'x']).1 = 42 ∧
    LastInsertId (Execute ⟨none, none, .error "no id", 1, none⟩ ⟨false, 7, [], [], false⟩
        ['i', 'n', 's', 'e', 'r', 't', ' ', 'x']).1 = 7 ∧
    LastInsertId (Execute ⟨none, none, .ok 42, 1, none⟩ ⟨false, 7, [], [], false⟩
        ['u', 'p', 'd', 'a', 't', 'e', ' ', 'x']).1 = 7 := by
  refine ⟨?_, ?_, ?_⟩
  · exact (((execute_insert_updates_lastInsertId ⟨none, none, .ok 42, 1, none⟩
      ⟨false, 7, [], [], false⟩ ['i', 'n', 's', 'e', 'r', 't', ' ', 'x'] rfl rfl).1
      (by decide)).1 42 rfl).1
  · exact (((execute_insert_updates_lastInsertId ⟨none, none, .error "no id", 1, none⟩
      ⟨false, 7, [], [], false⟩ ['i', 'n', 's', 'e', 'r', 't', ' ', 'x'] rfl rfl).1
      (by decide)).2 "no id" rfl).1
  · exact ((execute_insert_updates_lastInsertId ⟨none, none, .ok 42, 1, none⟩
      ⟨false, 7, [], [], false⟩ ['u', 'p', 'd', 'a', 't', 'e', ' ', 'x'] rfl rfl).2
      (Or.inl (by decide))).1

/-- The closer loop on all-succeeding steps: every step is invoked in
order on the threaded state and no rollback is issued. -/
theorem runClosers_ok {S : Type} (closers : List (S → S × Option String)) :
    ∀ (i : Nat) (s : S), StepsOk s closers →
      runClosers i s closers = (threadSteps s closers, stepEvents i closers.length, none) := by
  induction closers with
  | nil => intro i s _; rfl
  | cons c rest ih =>
      intro i s h
      obtain ⟨h1, h2⟩ := h
      simp only [runClosers, h1, threadSteps, List.length_cons, stepEvents]
      rw [ih (i + 1) (c s).1 h2]

/-- The closer loop at the first failing step: the preceding steps run in
order, the failing step runs, a rollback is issued, the failing step's
error is returned, and no later step is invoked. -/
theorem runClosers_first_error {S : Type} (f : S → S × Option String)
    (post : List (S → S × Option String)) (e : String) :
    ∀ (pre : List (S → S × Option String)) (i : Nat) (s : S), StepsOk s pre →
      (f (threadSteps s pre)).2 = some e →
      runClosers i s (pre ++ f :: post) =
        ((f (threadSteps s pre)).1,
         stepEvents i pre.length ++ [.stepCall (i + pre.length), .txRollback], some e) := by
  intro pre
  induction pre with
  | nil =>
      intro i s _ hf
      simp only [List.nil_append, runClosers, threadSteps] at hf ⊢
      simp [hf, stepEvents]
  | cons c rest ih =>
      intro i s h hf
      obtain ⟨h1, h2⟩ := h
      simp only [threadSteps] at hf
      simp only [List.cons_append, runClosers, h1, List.append_eq]
      rw [ih (i + 1) (c s).1 h2 hf]
      simp only [threadSteps, List.length_cons, stepEvents]
      have harith : i + (rest.length + 1) = i + 1 + rest.length := by omega
      rw [harith]
      simp [List.cons_append]

/-- C9.  `Transaction` begins a transaction, invokes the steps in order
on the threaded session; when every step succeeds it issues a commit and
returns the commit's result; at the first failing step it issues a
rollback, returns that step's error, and never invokes a later step (the
trace contains exactly the steps before and including the failing one). -/
theorem transaction_steps_in_order :
    (∀ (S : Type) (closers : List (S → S × Option String)) (s0 : S) (ce : Option String),
        StepsOk s0 closers →
        Transaction none ce closers s0 =
          (threadSteps s0 closers,
           .txBegin :: (stepEvents 0 closers.length ++ [.txCommit]), ce)) ∧
    (∀ (S : Type) (pre post : List (S → S × Option String)) (f : S → S × Option String)
        (s0 : S) (ce : Option String) (e : String),
        StepsOk s0 pre → (f (threadSteps s0 pre)).2 = some e →
        Transaction none ce (pre ++ f :: post) s0 =
          ((f (threadSteps s0 pre)).1,
           .txBegin :: (stepEvents 0 pre.length ++ [.stepCall pre.length, .txRollback]),
           some e)) := by
  constructor
  · intro S closers s0 ce h
    simp only [Transaction, runClosers_ok closers 0 s0 h]
    simp
  · intro S pre post f s0 ce e h hf
    simp only [Transaction, runClosers_first_error f post e pre 0 s0 h hf]
    simp

/-- Witness for C9: steps `[ok, ok, fail, ok]` run the first three and
roll back with the failing step's error; `[ok, ok]` commits. -/
theorem transaction_steps_in_order_witness :
    Transaction (S := Nat) none none
        [fun n => (n + 1, none), fun n => (n + 1, none), fun n => (n, some "boom"),
         fun n => (n + 100, none)] 0 =
      (2, [.txBegin, .stepCall 0, .stepCall 1, .stepCall 2, .txRollback], some "boom") ∧
    Transaction (S := Nat) none none
        [fun n => (n + 1, none), fun n => (n + 1, none)] 5 =
      (7, [.txBegin, .stepCall 0, .stepCall 1, .txCommit], none) := by
  constructor
  · have h := (transaction_steps_in_order).2 Nat
      [fun n => (n + 1, none), fun n => (n + 1, none)]
      [fun n => (n + 100, none)] (fun n => (n, some "boom")) 0 none "boom"
      (by simp [StepsOk]) (by simp [threadSteps])
    simpa [threadSteps, stepEvents] using h
  · have h := (transaction_steps_in_order).1 Nat
      [fun n => (n + 1, none), fun n => (n + 1, none)] 5 none (by simp [StepsOk])
    simpa [threadSteps, stepEvents] using h

end Gorose
